import Mathlib

/-!
Verification of `concatener` (src/main.rs), a command-line file concatenator.

The development shallowly embeds the program's core:
* `matches_pattern` — the wildcard matcher (src/main.rs lines 296-319);
* the encoding-detection cascade of `read_file_with_encoding_detection`
  (lines 402-492), including the BOM sniffing that `encoding_rs`'s
  `Encoding::decode` performs on every call;
* the input-resolution dispatch `resolve_input_files` (lines 99-166) and the
  directory collectors (lines 168-294, 321-340), over an explicit
  filesystem-tree model;
* `concatenate_files` (lines 342-400) and the `main` pipeline (lines 8-97),
  including the global `all_files.sort()` which uses Rust's `Path` ordering
  (component-wise comparison).

Strings are modelled as lists of Unicode scalar values (`Str := List Char`).
This is faithful to Rust `String`/`str`: the code only slices at `'*'`/`'/'`
boundaries (single-byte ASCII characters, hence char boundaries), and
byte-wise substring / prefix / suffix tests on well-formed UTF-8 coincide
with the corresponding tests on scalar-value sequences because UTF-8 is
self-synchronising and order-preserving.  File contents are byte lists
(`List Nat`, each entry `< 256` for real files).
-/

namespace Concatener

/-- Strings as lists of Unicode scalar values. -/
abbrev Str := List Char

/-- Byte-level substring test, `str::contains` from Rust.  `infixOf sub s` is
true iff `sub` occurs contiguously inside `s`. -/
def infixOf (sub : Str) : Str → Bool
  | [] => sub.isEmpty
  | c :: rest => sub.isPrefixOf (c :: rest) || infixOf sub rest

/-- `matches_pattern` from src/main.rs (lines 296-319): the five-shape
wildcard contract.  `pattern == "*"` matches everything; `*x*` is containment;
`*x` is suffix; `x*` is prefix; anything else is exact equality. -/
def matches_pattern (filename pattern : Str) : Bool :=
  if pattern = ['*'] then true
  else if pattern.head? = some '*' && pattern.getLast? = some '*' then
    infixOf ((pattern.drop 1).dropLast) filename
  else if pattern.head? = some '*' then
    (pattern.drop 1).isSuffixOf filename
  else if pattern.getLast? = some '*' then
    (pattern.dropLast).isPrefixOf filename
  else filename = pattern

/-- The matcher contract as the specification words it (§4.2): same shapes,
but the containment shape is explicitly guarded by `length > 1`. -/
def matchesSpec (filename pattern : Str) : Bool :=
  if pattern = ['*'] then true
  else if 1 < pattern.length ∧ pattern.head? = some '*' ∧ pattern.getLast? = some '*' then
    infixOf ((pattern.drop 1).dropLast) filename
  else if pattern.head? = some '*' then
    (pattern.drop 1).isSuffixOf filename
  else if pattern.getLast? = some '*' then
    (pattern.dropLast).isPrefixOf filename
  else filename = pattern


/-! ## Concatenation: trimming and joining (src/main.rs lines 365-389) -/

/-- Rust `char::is_whitespace`: the Unicode `White_Space` property. -/
def rustIsWhitespace (c : Char) : Bool :=
  c.val = 0x09 || c.val = 0x0A || c.val = 0x0B || c.val = 0x0C || c.val = 0x0D ||
  c.val = 0x20 || c.val = 0x85 || c.val = 0xA0 || c.val = 0x1680 ||
  (0x2000 ≤ c.val && c.val ≤ 0x200A) ||
  c.val = 0x2028 || c.val = 0x2029 || c.val = 0x202F || c.val = 0x205F || c.val = 0x3000

/-- Rust `str::trim_end`: remove all trailing whitespace characters. -/
def trimEnd (s : Str) : Str :=
  (s.reverse.dropWhile rustIsWhitespace).reverse

/-- The write loop of `concatenate_files` (lines 365-389): each file's decoded
content is trimmed and written, with one newline between consecutive files and
none after the last. -/
def concatOutput : List Str → Str
  | [] => []
  | [c] => trimEnd c
  | c :: c' :: rest => trimEnd c ++ '\n' :: concatOutput (c' :: rest)


/-! ## Encoding model (src/main.rs lines 402-492)

The cascade calls `encoding_rs::Encoding::decode`, whose documented behaviour
is: sniff a UTF-8 / UTF-16LE / UTF-16BE byte-order mark first; if one is
present, decode the rest with the *sniffed* encoding (not the receiver), else
decode the whole input with the receiver; malformed sequences become U+FFFD
and are reported in the returned error flag.  `rsDecode` models that wrapper.
The UTF-8 and UTF-16 decoders below implement the WHATWG decoders these
libraries use (`std::str::from_utf8` accepts exactly the inputs on which the
UTF-8 decoder reports no error, and `String::from_utf8_lossy` replaces each
maximal subpart of an ill-formed subsequence with one U+FFFD). -/

def replacementChar : Char := Char.ofNat 0xFFFD

/-- Is `b` a UTF-8 continuation byte? -/
def contOk (b : Nat) : Bool := 0x80 ≤ b && b ≤ 0xBF

/-- Pending state of the WHATWG UTF-8 byte automaton: the accumulated partial
code point, how many continuation bytes are still needed, and the admissible
range for the next byte (the lead byte restricts the first continuation to
rule out overlongs, surrogates and values above U+10FFFF). -/
structure U8Pending where
  acc : Nat
  need : Nat
  lo : Nat
  hi : Nat
deriving DecidableEq

/-- Classify a byte in the start state: ASCII emits a character, a valid lead
byte opens a pending sequence, anything else (a stray continuation byte,
0xC0/0xC1, or 0xF5 and above) is an error consuming just that byte. -/
def u8Start (b : Nat) : Str × Bool × Option U8Pending :=
  if b < 0x80 then ([Char.ofNat b], false, none)
  else if 0xC2 ≤ b && b ≤ 0xDF then ([], false, some ⟨b - 0xC0, 1, 0x80, 0xBF⟩)
  else if b = 0xE0 then ([], false, some ⟨0, 2, 0xA0, 0xBF⟩)
  else if b = 0xED then ([], false, some ⟨0xD, 2, 0x80, 0x9F⟩)
  else if 0xE1 ≤ b && b ≤ 0xEF then ([], false, some ⟨b - 0xE0, 2, 0x80, 0xBF⟩)
  else if b = 0xF0 then ([], false, some ⟨0, 3, 0x90, 0xBF⟩)
  else if b = 0xF4 then ([], false, some ⟨4, 3, 0x80, 0x8F⟩)
  else if 0xF1 ≤ b && b ≤ 0xF3 then ([], false, some ⟨b - 0xF0, 3, 0x80, 0xBF⟩)
  else ([replacementChar], true, none)

/-- The WHATWG UTF-8 decoder as a byte automaton.  On a byte that is invalid
for a pending sequence, the pending maximal subpart becomes one U+FFFD and
the byte is reprocessed as a fresh lead; a pending sequence at end of input
becomes one U+FFFD. -/
def utf8Go : Option U8Pending → List Nat → Str × Bool
  | none, [] => ([], false)
  | some _, [] => ([replacementChar], true)
  | none, b :: rest =>
    let s := u8Start b
    let r := utf8Go s.2.2 rest
    (s.1 ++ r.1, s.2.1 || r.2)
  | some st, b :: rest =>
    if st.lo ≤ b && b ≤ st.hi then
      if st.need = 1 then
        let r := utf8Go none rest
        (Char.ofNat (st.acc * 0x40 + (b - 0x80)) :: r.1, r.2)
      else
        utf8Go (some ⟨st.acc * 0x40 + (b - 0x80), st.need - 1, 0x80, 0xBF⟩) rest
    else
      let s := u8Start b
      let r := utf8Go s.2.2 rest
      (replacementChar :: (s.1 ++ r.1), true)

/-- The WHATWG UTF-8 decoder: decoded characters plus an error flag. -/
def utf8Core (bs : List Nat) : Str × Bool := utf8Go none bs

/-- `std::str::from_utf8`: succeeds exactly on well-formed UTF-8. -/
def utf8Strict (bs : List Nat) : Option Str :=
  let r := utf8Core bs
  if r.2 then none else some r.1

/-- Group bytes into 16-bit code units (little- or big-endian); the flag
records a dangling final byte, which the decoder turns into a U+FFFD. -/
def utf16Units (le : Bool) : List Nat → List Nat × Bool
  | [] => ([], false)
  | [_] => ([], true)
  | b1 :: b2 :: rest =>
    let u := if le then b1 + b2 * 0x100 else b1 * 0x100 + b2
    let r := utf16Units le rest
    (u :: r.1, r.2)

/-- Combine UTF-16 code units into characters; unpaired surrogates become
U+FFFD and set the error flag. -/
def utf16Combine : List Nat → Str × Bool
  | [] => ([], false)
  | u :: rest =>
    if 0xD800 ≤ u && u ≤ 0xDBFF then
      match rest with
      | v :: rest2 =>
        if 0xDC00 ≤ v && v ≤ 0xDFFF then
          let r := utf16Combine rest2
          (Char.ofNat (0x10000 + (u - 0xD800) * 0x400 + (v - 0xDC00)) :: r.1, r.2)
        else
          let r := utf16Combine (v :: rest2)
          (replacementChar :: r.1, true)
      | [] => ([replacementChar], true)
    else if 0xDC00 ≤ u && u ≤ 0xDFFF then
      let r := utf16Combine rest
      (replacementChar :: r.1, true)
    else
      let r := utf16Combine rest
      (Char.ofNat u :: r.1, r.2)

/-- The WHATWG UTF-16 decoder (replacement mode). -/
def utf16Core (le : Bool) (bs : List Nat) : Str × Bool :=
  let us := utf16Units le bs
  let r := utf16Combine us.1
  (r.1 ++ (if us.2 then [replacementChar] else []), us.2 || r.2)

/-- The non-identity rows of the WHATWG windows-1252 index (0x80-0x9F; the
five unassigned printable slots map to the same-numbered C1 controls, i.e.
identity, so they are omitted).  Every byte has a mapping: the windows-1252
decoder never reports an error. -/
def win1252Table : List (Nat × Nat) :=
  [(0x80, 0x20AC), (0x82, 0x201A), (0x83, 0x0192), (0x84, 0x201E), (0x85, 0x2026),
   (0x86, 0x2020), (0x87, 0x2021), (0x88, 0x02C6), (0x89, 0x2030), (0x8A, 0x0160),
   (0x8B, 0x2039), (0x8C, 0x0152), (0x8E, 0x017D), (0x91, 0x2018), (0x92, 0x2019),
   (0x93, 0x201C), (0x94, 0x201D), (0x95, 0x2022), (0x96, 0x2013), (0x97, 0x2014),
   (0x98, 0x02DC), (0x99, 0x2122), (0x9A, 0x0161), (0x9B, 0x203A), (0x9C, 0x0153),
   (0x9E, 0x017E), (0x9F, 0x0178)]

def win1252Char (b : Nat) : Char :=
  match win1252Table.find? (fun p => p.1 = b) with
  | some p => Char.ofNat p.2
  | none => Char.ofNat b

/-- `encoding_rs::WINDOWS_1252.decode_without_bom_handling`: total, no error. -/
def win1252Core (bs : List Nat) : Str × Bool := (bs.map win1252Char, false)

/-- The sniffed encodings of `encoding_rs::Encoding::for_bom`. -/
inductive BomEnc where
  | utf8
  | utf16le
  | utf16be
deriving DecidableEq

/-- `encoding_rs::Encoding::for_bom`: which BOM starts the buffer, and its
length. -/
def forBom (bs : List Nat) : Option (BomEnc × Nat) :=
  if bs.take 3 = [0xEF, 0xBB, 0xBF] then some (.utf8, 3)
  else if bs.take 2 = [0xFF, 0xFE] then some (.utf16le, 2)
  else if bs.take 2 = [0xFE, 0xFF] then some (.utf16be, 2)
  else none

/-- `encoding_rs::Encoding::decode` for a receiver whose
`decode_without_bom_handling` is `dec`: BOM-sniff first, and decode the rest
with the sniffed encoding if a BOM is present. -/
def rsDecode (dec : List Nat → Str × Bool) (bs : List Nat) : Str × Bool :=
  match forBom bs with
  | some (.utf8, n) => utf8Core (bs.drop n)
  | some (.utf16le, n) => utf16Core true (bs.drop n)
  | some (.utf16be, n) => utf16Core false (bs.drop n)
  | none => dec bs

/-! ### The detection cascade -/

/-- Try a list of probes in order; first success wins (§4.4 of the spec, the
chain of early returns in the code). -/
def firstSome (ps : List (List Nat → Option Str)) (bs : List Nat) : Option Str :=
  match ps with
  | [] => none
  | p :: rest =>
    match p bs with
    | some y => some y
    | none => firstSome rest bs

/-- The explicit BOM checks at the top of `read_file_with_encoding_detection`
(lines 407-425): `FF FE` and `FE FF` return the library decode of the
remainder unconditionally; `EF BB BF` returns the strict UTF-8 decode of the
remainder and falls through if it is invalid. -/
def bomProbe (bs : List Nat) : Option Str :=
  if bs.take 2 = [0xFF, 0xFE] then some (rsDecode (utf16Core true) (bs.drop 2)).1
  else if bs.take 2 = [0xFE, 0xFF] then some (rsDecode (utf16Core false) (bs.drop 2)).1
  else if bs.take 3 = [0xEF, 0xBB, 0xBF] then utf8Strict (bs.drop 3)
  else none

/-- Strict whole-buffer UTF-8 (line 428). -/
def utf8Probe (bs : List Nat) : Option Str := utf8Strict bs

/-- A library decode accepted only when it reports no error (lines 433-448
and the two encoding lists). -/
def errCheckProbe (dec : List Nat → Str × Bool) (bs : List Nat) : Option Str :=
  let r := rsDecode dec bs
  if r.2 then none else some r.1

/-- The five fixed steps before the encoding lists: BOM block, strict UTF-8,
UTF-16LE, UTF-16BE, windows-1252 (lines 407-448), in source order. -/
def baseProbes : List (List Nat → Option Str) :=
  [bomProbe, utf8Probe, errCheckProbe (utf16Core true),
   errCheckProbe (utf16Core false), errCheckProbe win1252Core]

/-- The non-fallback steps of the cascade, in source order.  `extras` stands
for the `decode_without_bom_handling` functions of the ISO-8859 variant list
and the legacy-encodings list (lines 450-488), kept as a parameter: every
theorem below holds for an arbitrary such list. -/
def cascadeProbes (extras : List (List Nat → Str × Bool)) :
    List (List Nat → Option Str) :=
  baseProbes ++ extras.map errCheckProbe

/-- The final fallback (line 491): `String::from_utf8_lossy`, always some. -/
def lossyProbe (bs : List Nat) : Option Str := some (utf8Core bs).1

/-- Everything after the `fs::read` in `read_file_with_encoding_detection`
(lines 407-491): the ordered cascade with lossy UTF-8 fallback. -/
def decodeBytes (extras : List (List Nat → Str × Bool)) (bs : List Nat) : Str :=
  (firstSome (cascadeProbes extras) bs).getD (utf8Core bs).1


/-! ## Filesystem model

The resolution engine walks a real filesystem.  We model a directory tree:
regular files with byte contents, and directories with named entries and a
readability flag (`fs::read_dir` fails on an unreadable directory, while
`Path::is_dir` still reports it as a directory).  The tree passed to
`resolve_input_files` is the current working directory; path strings are
resolved against it by splitting at `/` and dropping empty and `.` segments
(the normalisation the OS applies), so absolute paths are resolved against
the same root — the distinction between the filesystem root and the working
directory is immaterial to every claim below.  `..` segments and symbolic
links are outside the model (no claim mentions them). -/

mutual
inductive FsTree where
  | file (content : List Nat) : FsTree
  | dir (readable : Bool) (entries : FsEntries) : FsTree
inductive FsEntries where
  | nil : FsEntries
  | cons (name : Str) (t : FsTree) (rest : FsEntries) : FsEntries
end

def splitOnSlashAux (acc : Str) : Str → List Str
  | [] => [acc.reverse]
  | c :: rest =>
    if c = '/' then acc.reverse :: splitOnSlashAux [] rest
    else splitOnSlashAux (c :: acc) rest

/-- Split a path string at `/` separators; segments may be empty. -/
def splitOnSlash (p : Str) : List Str := splitOnSlashAux [] p

/-- The non-trivial path segments: empty segments (repeated or trailing
separators) and `.` segments are dropped, as the OS does when resolving. -/
def pathChunks (p : Str) : List Str :=
  (splitOnSlash p).filter (fun c => !c.isEmpty && c ≠ ['.'])

def findEntry : FsEntries → Str → Option FsTree
  | .nil, _ => none
  | .cons n t rest, c => if n = c then some t else findEntry rest c

def lookupSegs (t : FsTree) : List Str → Option FsTree
  | [] => some t
  | c :: cs =>
    match t with
    | .file _ => none
    | .dir _ es =>
      match findEntry es c with
      | some ch => lookupSegs ch cs
      | none => none

/-- Resolve a path string against the tree (the empty path names nothing). -/
def pathLookup (fs : FsTree) (p : Str) : Option FsTree :=
  if p = [] then none else lookupSegs fs (pathChunks p)

/-- Rust `Path::is_dir` over the model. -/
def fsIsDir (fs : FsTree) (p : Str) : Bool :=
  match pathLookup fs p with
  | some (.dir _ _) => true
  | _ => false

/-- Rust `Path::is_file` over the model. -/
def fsIsFile (fs : FsTree) (p : Str) : Bool :=
  match pathLookup fs p with
  | some (.file _) => true
  | _ => false

/-- The error taxonomy of the resolution engine (§7 of the spec): the
`anyhow` messages "Input path does not exist", "Failed to read directory",
"Invalid glob pattern" and "Failed to read file". -/
inductive RErr where
  | inputNotFound (input : Str)
  | dirReadError (path : Str)
  | invalidPattern (pattern : Str)
  | fileReadError (path : Str)
deriving DecidableEq

instance {e a : Type} [DecidableEq e] [DecidableEq a] : DecidableEq (Except e a)
  | .ok x, .ok y =>
    if h : x = y then .isTrue (by rw [h])
    else .isFalse (by intro hc; cases hc; exact h rfl)
  | .ok _, .error _ => .isFalse (by intro hc; cases hc)
  | .error _, .ok _ => .isFalse (by intro hc; cases hc)
  | .error u, .error v =>
    if h : u = v then .isTrue (by rw [h])
    else .isFalse (by intro hc; cases hc; exact h rfl)

/-- Rust `Path::join` on strings: no duplicate separator is introduced, and
joining onto the empty path yields the name alone. -/
def joinPath (dir name : Str) : Str :=
  if dir = [] then name
  else if dir.getLast? = some '/' then dir ++ name
  else dir ++ '/' :: name

def entriesList : FsEntries → List (Str × FsTree)
  | .nil => []
  | .cons n t rest => (n, t) :: entriesList rest

/-- Convenience constructor for concrete trees. -/
def entriesOf : List (Str × FsTree) → FsEntries
  | [] => .nil
  | (n, t) :: rest => .cons n t (entriesOf rest)

/-! ### Collectors (src/main.rs lines 168-294, 321-340) -/

/-- `collect_files_in_directory` (lines 168-180): the direct children that
are regular files, in enumeration order. -/
def collect_files_in_directory (dirPath : Str) (t : FsTree) : Except RErr (List Str) :=
  match t with
  | .file _ => .error (.dirReadError dirPath)
  | .dir false _ => .error (.dirReadError dirPath)
  | .dir true es =>
    .ok ((entriesList es).flatMap fun e =>
      match e.2 with
      | .file _ => [joinPath dirPath e.1]
      | .dir _ _ => [])

/-- `collect_files_in_directory_with_pattern` (lines 182-202): direct file
children whose name satisfies `matches_pattern`. -/
def collect_files_in_directory_with_pattern (dirPath pattern : Str) (t : FsTree) :
    Except RErr (List Str) :=
  match t with
  | .file _ => .error (.dirReadError dirPath)
  | .dir false _ => .error (.dirReadError dirPath)
  | .dir true es =>
    .ok ((entriesList es).flatMap fun e =>
      match e.2 with
      | .file _ => if matches_pattern e.1 pattern then [joinPath dirPath e.1] else []
      | .dir _ _ => [])

mutual
/-- `collect_files_recursive` (lines 321-340): depth-first, files and
subdirectory contents interleaved in enumeration order. -/
def collect_files_recursive (dirPath : Str) (t : FsTree) : Except RErr (List Str) :=
  match t with
  | .file _ => .error (.dirReadError dirPath)
  | .dir false _ => .error (.dirReadError dirPath)
  | .dir true es => collectRecEntries dirPath es

def collectRecEntries (dirPath : Str) : FsEntries → Except RErr (List Str)
  | .nil => .ok []
  | .cons n t rest =>
    match t with
    | .file _ =>
      match collectRecEntries dirPath rest with
      | .ok r => .ok (joinPath dirPath n :: r)
      | .error e => .error e
    | .dir b es =>
      match collect_files_recursive (joinPath dirPath n) (.dir b es) with
      | .ok sub =>
        match collectRecEntries dirPath rest with
        | .ok r => .ok (sub ++ r)
        | .error e => .error e
      | .error e => .error e
end

mutual
/-- `collect_files_recursive_with_pattern` (lines 272-294): as above but only
file names satisfying `matches_pattern` are kept. -/
def collect_files_recursive_with_pattern (dirPath pattern : Str) (t : FsTree) :
    Except RErr (List Str) :=
  match t with
  | .file _ => .error (.dirReadError dirPath)
  | .dir false _ => .error (.dirReadError dirPath)
  | .dir true es => collectRecPatEntries dirPath pattern es

def collectRecPatEntries (dirPath pattern : Str) : FsEntries → Except RErr (List Str)
  | .nil => .ok []
  | .cons n t rest =>
    match t with
    | .file _ =>
      match collectRecPatEntries dirPath pattern rest with
      | .ok r => .ok (if matches_pattern n pattern then joinPath dirPath n :: r else r)
      | .error e => .error e
    | .dir b es =>
      match collect_files_recursive_with_pattern (joinPath dirPath n) pattern (.dir b es) with
      | .ok sub =>
        match collectRecPatEntries dirPath pattern rest with
        | .ok r => .ok (sub ++ r)
        | .error e => .error e
      | .error e => .error e
end

/-! ### The `glob` crate model (used by `collect_files_with_wildcard` for
patterns that contain a separator, lines 208-220)

`glob::glob` compiles the pattern (an invalid pattern, e.g. an unclosed
character class, is an eager `PatternError`) and walks the filesystem
component-wise.  The model covers the `*` and `?` wildcards; patterns using
character-class brackets or a recursive `**` component are conservatively
treated as invalid (`globValid`), which is exact for the unclosed-class
pattern used below and affects no other claim: no theorem depends on the
match results of bracketed or `**` patterns. -/

/-- Fuel-indexed matcher for one path component against a component pattern
with `*` and `?`.  The fuel `pattern.length + name.length + 1` used by
`globMatch` is sufficient: every recursive call decreases the sum. -/
def globMatchF : Nat → Str → Str → Bool
  | 0, _, _ => false
  | _ + 1, [], name => name.isEmpty
  | fuel + 1, '*' :: ps, name =>
    globMatchF fuel ps name ||
      (match name with
       | [] => false
       | _ :: ns => globMatchF fuel ('*' :: ps) ns)
  | fuel + 1, '?' :: ps, name =>
    match name with
    | [] => false
    | _ :: ns => globMatchF fuel ps ns
  | fuel + 1, c :: ps, name =>
    match name with
    | [] => false
    | n :: ns => c = n && globMatchF fuel ps ns

def globMatch (p name : Str) : Bool := globMatchF (p.length + name.length + 1) p name

def globComponentValid (c : Str) : Bool :=
  !c.contains '[' && !c.contains ']' && !(infixOf ['*', '*'] c)

def globValid (p : Str) : Bool := (splitOnSlash p).all globComponentValid

/-- Does a pattern component use a wildcard (so that `glob` must `read_dir`
the enclosing directory to expand it)?  A literal component is joined and
stat-checked without reading the directory (`fill_todo`). -/
def compHasWildcard (c : Str) : Bool := c.contains '*' || c.contains '?'

/-- Sequence a list of fallible results left to right, concatenating the
successes; the first error wins (the `?` in the `for path in paths` loop at
line 215 aborts at the first `GlobError`). -/
def exceptFlatten : List (Except RErr (List Str)) → Except RErr (List Str)
  | [] => .ok []
  | .error e :: _ => .error e
  | .ok l :: rest =>
    match exceptFlatten rest with
    | .error e => .error e
    | .ok r => .ok (l ++ r)

/-- Walk the tree along the pattern components; the final component selects
regular files (the caller keeps only `is_file` results).  Expanding a
wildcard component requires reading the directory: a `readable = false`
directory there yields the `glob` crate's `GlobError` (a `read_dir` failure
on the named path), which line 215 propagates — modelled as a
directory-read error.  A literal component is joined without reading, so an
unreadable directory on a purely literal prefix is not an error. -/
def globWalk : List Str → FsTree → Str → Except RErr (List Str)
  | [], _, _ => .ok []
  | [last], t, path =>
    (match t with
     | .file _ => .ok []
     | .dir r es =>
       if compHasWildcard last then
         if r then
           .ok ((entriesList es).flatMap fun e =>
             match e.2 with
             | .file _ => if globMatch last e.1 then [joinPath path e.1] else []
             | .dir _ _ => [])
         else .error (.dirReadError path)
       else
         match findEntry es last with
         | some (.file _) => .ok [joinPath path last]
         | _ => .ok [])
  | c :: c' :: rest, t, path =>
    (match t with
     | .file _ => .ok []
     | .dir r es =>
       if compHasWildcard c then
         if r then
           exceptFlatten ((entriesList es).map fun e =>
             match e.2 with
             | .dir _ _ =>
               if globMatch c e.1 then globWalk (c' :: rest) e.2 (joinPath path e.1)
               else .ok []
             | .file _ => .ok [])
         else .error (.dirReadError path)
       else
         match findEntry es c with
         | some ch => globWalk (c' :: rest) ch (joinPath path c)
         | none => .ok [])

/-- `collect_files_with_wildcard` (lines 204-244).  A pattern with a
separator is delegated to `glob`; a bare pattern only enumerates the current
working directory and applies `matches_pattern` to direct file children. -/
def collect_files_with_wildcard (fs : FsTree) (cwd : Str) (pattern : Str) :
    Except RErr (List Str) :=
  if pattern.contains '/' then
    if globValid pattern then globWalk (pathChunks pattern) fs []
    else .error (.invalidPattern pattern)
  else
    match fs with
    | .dir true es =>
      .ok ((entriesList es).flatMap fun e =>
        match e.2 with
        | .file _ => if matches_pattern e.1 pattern then [joinPath cwd e.1] else []
        | .dir _ _ => [])
    | _ => .error (.dirReadError cwd)

mutual
/-- Every directory in the tree is readable (a sufficient condition for the
glob walk to encounter no `read_dir` failure). -/
def allReadable : FsTree → Bool
  | .file _ => true
  | .dir r es => r && allReadableEntries es

def allReadableEntries : FsEntries → Bool
  | .nil => true
  | .cons _ t rest => allReadable t && allReadableEntries rest
end

/-- Split at the last separator: the Rust `rfind('/')` slicing. -/
def rsplitSlash (p : Str) : Str × Str :=
  let revAfter := p.reverse.takeWhile (fun c => c ≠ '/')
  (p.take (p.length - revAfter.length - 1), revAfter.reverse)

/-- `collect_files_with_wildcard_recursive` (lines 246-270): split at the
last separator; a nonexistent base directory yields the empty list. -/
def collect_files_with_wildcard_recursive (fs : FsTree) (pattern : Str) :
    Except RErr (List Str) :=
  if pattern.contains '/' then
    let dp := rsplitSlash pattern
    match pathLookup fs dp.1 with
    | some (.dir b es) => collect_files_recursive_with_pattern dp.1 dp.2 (.dir b es)
    | _ => .ok []
  else
    collect_files_recursive_with_pattern ['.'] pattern fs

/-! ### Input resolution (src/main.rs lines 99-166) -/

/-- `~/` expansion (lines 100-109): `replacen("~", home, 1)` when the token
starts with `~/` and the home variable is set. -/
def expandTilde (home : Option Str) (input : Str) : Str :=
  if input.take 2 = ['~', '/'] then
    match home with
    | some h => h ++ input.drop 1
    | none => input
  else input

/-- `resolve_input_files`: the dispatch over one input token, in the source's
priority order: wildcard+separator with an existing directory part; existing
directory; bare wildcard; existing file; otherwise `InputNotFound` naming the
original (unexpanded) input. -/
def resolve_input_files (fs : FsTree) (cwd : Str) (home : Option Str)
    (input : Str) (recursive : Bool) : Except RErr (List Str) :=
  let expanded := expandTilde home input
  if expanded.contains '*' && expanded.contains '/' then
    let dp := rsplitSlash expanded
    match pathLookup fs dp.1 with
    | some (.dir b es) =>
      if recursive then collect_files_recursive_with_pattern dp.1 dp.2 (.dir b es)
      else collect_files_in_directory_with_pattern dp.1 dp.2 (.dir b es)
    | _ =>
      if recursive then collect_files_with_wildcard_recursive fs expanded
      else collect_files_with_wildcard fs cwd expanded
  else
    match pathLookup fs expanded with
    | some (.dir b es) =>
      if recursive then collect_files_recursive expanded (.dir b es)
      else collect_files_in_directory expanded (.dir b es)
    | some (.file _) =>
      if expanded.contains '*' then
        if recursive then collect_files_with_wildcard_recursive fs expanded
        else collect_files_with_wildcard fs cwd expanded
      else .ok [expanded]
    | none =>
      if expanded.contains '*' then
        if recursive then collect_files_with_wildcard_recursive fs expanded
        else collect_files_with_wildcard fs cwd expanded
      else .error (.inputNotFound input)

/-! ## Path ordering and the global sort (src/main.rs line 75)

`all_files.sort()` sorts `Vec<PathBuf>` with `Path`'s `Ord`, which compares
the *component* sequences of the two paths: `RootDir < CurDir < ParentDir <
Normal`, and normal components byte-wise.  (On Unix there is no `Prefix`
component.)  Byte-wise comparison of UTF-8 `OsStr`s coincides with
lexicographic comparison of scalar-value sequences because UTF-8 is
order-preserving.  Rust's `sort` is stable; the insertion sort below is also
stable, and two stable sorts under the same total preorder agree on every
input, so `pathSort` computes exactly the sorted order `main` produces. -/

inductive PComp where
  | rootDir
  | curDir
  | parentDir
  | normal (s : Str)
deriving DecidableEq

def pcompRank : PComp → Nat
  | .rootDir => 0
  | .curDir => 1
  | .parentDir => 2
  | .normal _ => 3

def natCmp (a b : Nat) : Ordering :=
  if a < b then .lt else if b < a then .gt else .eq

def charCmp (a b : Char) : Ordering := natCmp a.toNat b.toNat

def lexCmp {α : Type} (cmp : α → α → Ordering) : List α → List α → Ordering
  | [], [] => .eq
  | [], _ :: _ => .lt
  | _ :: _, [] => .gt
  | a :: as, b :: bs =>
    match cmp a b with
    | .eq => lexCmp cmp as bs
    | o => o

/-- Byte-wise lexicographic string comparison (the spec's claimed order). -/
def strCmp (a b : Str) : Ordering := lexCmp charCmp a b

def pcompCmp (a b : PComp) : Ordering :=
  match natCmp (pcompRank a) (pcompRank b) with
  | .eq =>
    match a, b with
    | .normal s, .normal t => strCmp s t
    | _, _ => .eq
  | o => o

/-- Rust `Path::components` on Unix: a root for a leading separator, a
`CurDir` only when a relative path starts with `.` or `./`, `.` segments
normalised away, empty segments ignored, `..` as `ParentDir`. -/
def pathComponents (p : Str) : List PComp :=
  let abs := p.head? = some '/'
  let root : List PComp := if abs then [.rootDir] else []
  let cur : List PComp :=
    if !abs && (p = ['.'] || p.take 2 = ['.', '/']) then [.curDir] else []
  root ++ cur ++ (pathChunks p).map fun c =>
    if c = ['.', '.'] then PComp.parentDir else PComp.normal c

/-- `Path::cmp`: lexicographic comparison of component sequences. -/
def pathCmp (a b : Str) : Ordering :=
  lexCmp pcompCmp (pathComponents a) (pathComponents b)

/-- The non-strict `Path` order: `a` may come before `b`. -/
def pathLeP (a b : Str) : Prop := pathCmp a b ≠ .gt

instance : DecidableRel pathLeP := fun a b => by
  unfold pathLeP
  infer_instance

/-- The stable sort `all_files.sort()` under `Path` ordering (Rust's `sort`
is a stable merge sort; a stable insertion sort under the same total preorder
produces the identical list). -/
def pathSort (l : List Str) : List Str := List.insertionSort pathLeP l

def pathSorted : List Str → Bool
  | [] => true
  | [_] => true
  | a :: b :: t =>
    match pathCmp a b with
    | .gt => false
    | _ => pathSorted (b :: t)

/-- Sortedness under byte-wise string comparison (what the spec asserts). -/
def byteLexSorted : List Str → Bool
  | [] => true
  | [_] => true
  | a :: b :: t =>
    match strCmp a b with
    | .gt => false
    | _ => byteLexSorted (b :: t)

/-! ## The main pipeline (src/main.rs lines 8-97, 342-400) -/

/-- `fs::read` over the model. -/
def readFileBytes (fs : FsTree) (p : Str) : Except RErr (List Nat) :=
  match pathLookup fs p with
  | some (.file c) => .ok c
  | _ => .error (.fileReadError p)

def readAllFiles (fs : FsTree) : List Str → Except RErr (List (List Nat))
  | [] => .ok []
  | p :: ps =>
    match readFileBytes fs p with
    | .error e => .error e
    | .ok c =>
      match readAllFiles fs ps with
      | .error e => .error e
      | .ok r => .ok (c :: r)

/-- `concatenate_files` (lines 342-400): read each file, decode it through
the cascade, trim its trailing whitespace, and join with single newlines.
The returned string is the full content written to the output file.  (The
creation/flush of the output file itself, and hence `OutputWriteError`, is
I/O outside the model; a partially written output after a mid-loop failure is
likewise not modelled — on failure the model only reports the error.) -/
def concatenate_files (extras : List (List Nat → Str × Bool)) (fs : FsTree)
    (files : List Str) : Except RErr Str :=
  match readAllFiles fs files with
  | .error e => .error e
  | .ok contents => .ok (concatOutput (contents.map (decodeBytes extras)))

/-- The resolution loop of `main` (lines 53-60): per-token results
concatenated in token order, any failure aborting the run. -/
def resolveAll (fs : FsTree) (cwd : Str) (home : Option Str) (recursive : Bool) :
    List Str → Except RErr (List Str)
  | [] => .ok []
  | i :: is =>
    match resolve_input_files fs cwd home i recursive with
    | .error e => .error e
    | .ok l =>
      match resolveAll fs cwd home recursive is with
      | .error e => .error e
      | .ok r => .ok (l ++ r)

/-- Outcome of a run of `main`: `emptyWarning` is the "no input files found"
path (a warning, exit code 0, output file neither created nor truncated);
`wrote` carries the globally sorted file list and the output content; any
resolution or read failure is `failed` (non-zero exit). -/
inductive MainResult where
  | emptyWarning
  | wrote (files : List Str) (output : Str)
  | failed (e : RErr)
deriving DecidableEq

/-- `main` (lines 51-97): resolve every token, warn-and-exit on an empty
aggregate, otherwise sort globally and concatenate. -/
def runMain (extras : List (List Nat → Str × Bool)) (fs : FsTree) (cwd : Str)
    (home : Option Str) (inputs : List Str) (recursive : Bool) : MainResult :=
  match resolveAll fs cwd home recursive inputs with
  | .error e => .failed e
  | .ok all =>
    if all.isEmpty then .emptyWarning
    else
      match concatenate_files extras fs (pathSort all) with
      | .error e => .failed e
      | .ok out => .wrote (pathSort all) out

def exitCode : MainResult → Nat
  | .emptyWarning => 0
  | .wrote _ _ => 0
  | .failed _ => 1

def writesOutput : MainResult → Bool
  | .wrote _ _ => true
  | _ => false

/-! ## Concrete trees used as witnesses and counterexamples -/

/-- A working directory containing the files `h.txt` = "Hello",
`w.txt` = "World" and `s.txt` = "Single content". -/
def fsHW : FsTree := .dir true (entriesOf
  [("h.txt".data, .file [0x48, 0x65, 0x6C, 0x6C, 0x6F]),
   ("w.txt".data, .file [0x57, 0x6F, 0x72, 0x6C, 0x64]),
   ("s.txt".data, .file [0x53, 0x69, 0x6E, 0x67, 0x6C, 0x65, 0x20, 0x63, 0x6F,
      0x6E, 0x74, 0x65, 0x6E, 0x74])])

/-- A working directory that contains a *directory* literally named `*.txt`
(legal on Unix) with a file inside, plus an ordinary file. -/
def fsStar : FsTree := .dir true (entriesOf
  [("*.txt".data, .dir true (entriesOf [("a.txt".data, .file [0x34])])),
   ("root.txt".data, .file [0x35])])

/-- A working directory with a file `a-b` and a file `b` inside directory
`a`: `a-b` and `a/b` compare oppositely under byte-wise string order
(`0x2D < 0x2F`) and under `Path` component order (`"a" < "a-b"`). -/
def fsC1 : FsTree := .dir true (entriesOf
  [("a-b".data, .file [0x58]),
   ("a".data, .dir true (entriesOf [("b".data, .file [0x59])]))])

/-- A working directory containing only an empty subdirectory `d`. -/
def fsEmptyDir : FsTree := .dir true (entriesOf
  [("d".data, .dir true (entriesOf []))])

/-- A working directory with `file1.txt`, `other.log`, and a subdirectory
holding `sub1.txt`. -/
def fsPlain : FsTree := .dir true (entriesOf
  [("file1.txt".data, .file [0x31]),
   ("other.log".data, .file [0x32]),
   ("subdir".data, .dir true (entriesOf [("sub1.txt".data, .file [0x33])]))])


/-! ## Theorems -/

theorem matches_pattern_eq_spec (filename pattern : Str) :
    matches_pattern filename pattern = matchesSpec filename pattern := by
  match pattern with
  | [] => rfl
  | [c] =>
    by_cases h : c = '*'
    · subst h; rfl
    · simp [matches_pattern, matchesSpec, h]
  | a :: b :: t =>
    simp only [matches_pattern, matchesSpec, List.length_cons]
    have hlen : 1 < t.length + 1 + 1 := by omega
    by_cases ha : (a :: b :: t : Str).head? = some '*' <;>
      by_cases hb : (a :: b :: t : Str).getLast? = some '*' <;>
        simp [ha, hb, hlen]

/-- C2: `matches_pattern` implements exactly the five-shape contract of the
spec, checked in priority order, and the spec's concrete examples hold:
`"*"` matches everything, `*x*`/`x*`/`*x`/`x` are containment / prefix /
suffix / exact, `matches("test.txt","*.txt")` is true and
`matches("test.txt","*.log")` is false. -/
theorem matches_pattern_contract :
    (∀ filename pattern : Str, matches_pattern filename pattern = matchesSpec filename pattern)
    ∧ matches_pattern "test.txt".data "*.txt".data = true
    ∧ matches_pattern "test.txt".data "*.log".data = false
    ∧ matches_pattern "test.txt".data "test*".data = true
    ∧ matches_pattern "test.txt".data "*test*".data = true
    ∧ matches_pattern "test.txt".data "test.txt".data = true
    ∧ matches_pattern "test.txt".data "*".data = true := by
  refine ⟨matches_pattern_eq_spec, ?_, ?_, ?_, ?_, ?_, ?_⟩ <;> decide

theorem concatOutput_eq_intercalate (texts : List Str) :
    concatOutput texts = List.intercalate ['\n'] (texts.map trimEnd) := by
  match texts with
  | [] => rfl
  | [c] => simp [concatOutput, List.intercalate]
  | c :: c' :: rest =>
    have ih := concatOutput_eq_intercalate (c' :: rest)
    simp only [concatOutput, ih, List.map_cons, List.intercalate, List.intersperse,
      List.flatten]
    simp

theorem firstSome_append (l₁ l₂ : List (List Nat → Option Str)) (bs : List Nat) :
    firstSome (l₁ ++ l₂) bs =
      match firstSome l₁ bs with
      | some y => some y
      | none => firstSome l₂ bs := by
  induction l₁ with
  | nil => simp [firstSome]
  | cons p rest ih =>
    simp only [List.cons_append, firstSome]
    cases p bs with
    | some y => rfl
    | none => simpa using ih

theorem firstSome_eq_none_iff (ps : List (List Nat → Option Str)) (bs : List Nat) :
    firstSome ps bs = none ↔ ∀ p ∈ ps, p bs = none := by
  induction ps with
  | nil => simp [firstSome]
  | cons p rest ih =>
    simp only [firstSome, List.mem_cons]
    cases h : p bs with
    | some y =>
      constructor
      · intro hc; exact absurd hc (by simp)
      · intro hall
        have hp := hall p (Or.inl rfl)
        rw [hp] at h
        cases h
    | none =>
      rw [ih]
      constructor
      · rintro hall q (rfl | hq)
        · exact h
        · exact hall q hq
      · intro hall q hq
        exact hall q (Or.inr hq)

/-- C4: the cascade never reports a hard error: with the lossy fallback
appended as a final probe, some probe always fires, the overall result is
exactly `decodeBytes`, and whenever every strict step fails the result is the
lossy UTF-8 decode (invalid sequences replaced by U+FFFD). -/
theorem decode_cascade_total (extras : List (List Nat → Str × Bool)) (bs : List Nat) :
    firstSome (cascadeProbes extras ++ [lossyProbe]) bs = some (decodeBytes extras bs)
    ∧ (firstSome (cascadeProbes extras) bs = none →
        decodeBytes extras bs = (utf8Core bs).1) := by
  constructor
  · cases h : firstSome (cascadeProbes extras) bs with
    | none =>
      rw [firstSome_append, h]
      unfold decodeBytes
      rw [h]
      rfl
    | some y =>
      rw [firstSome_append, h]
      unfold decodeBytes
      rw [h]
      rfl
  · intro h
    unfold decodeBytes
    rw [h]
    rfl

/-- Witness for C4 at a concrete input on which every strict probe fails:
`EF BB BF FF` (a UTF-8 BOM followed by an invalid byte). -/
theorem decode_cascade_total_witness :
    firstSome (cascadeProbes []) [0xEF, 0xBB, 0xBF, 0xFF] = none
    ∧ decodeBytes [] [0xEF, 0xBB, 0xBF, 0xFF] = (utf8Core [0xEF, 0xBB, 0xBF, 0xFF]).1 :=
  ⟨by decide, (decode_cascade_total [] [0xEF, 0xBB, 0xBF, 0xFF]).2 (by decide)⟩

/-- C5 as stated is false at a concrete input: for a buffer beginning `FF FE`
whose remainder itself begins with a (UTF-8) BOM, the library call
`UTF_16LE.decode(&bytes[2..])` BOM-sniffs the remainder and decodes it as
UTF-8, not as UTF-16 little-endian.  `FF FE EF BB BF 41` decodes to `"A"`,
whereas UTF-16LE decoding of the remainder would give `U+BBEF U+41BF`. -/
theorem bom_utf16le_counterexample :
    decodeBytes [] [0xFF, 0xFE, 0xEF, 0xBB, 0xBF, 0x41] = ['A']
    ∧ (utf16Core true [0xEF, 0xBB, 0xBF, 0x41]).1 = [Char.ofNat 0xBBEF, Char.ofNat 0x41BF]
    ∧ decodeBytes [] [0xFF, 0xFE, 0xEF, 0xBB, 0xBF, 0x41]
        ≠ (utf16Core true [0xEF, 0xBB, 0xBF, 0x41]).1 := by
  refine ⟨by decide, by decide, by decide⟩

/-- C5 amended: `FF FE` strips two bytes and hands the remainder to the
library UTF-16LE decode — which equals plain UTF-16LE decoding whenever the
remainder does not itself begin with a BOM; symmetrically for `FE FF`; and
`EF BB BF` strips three bytes, returns the strict UTF-8 decode of the
remainder when it is valid, and otherwise falls through to the rest of the
cascade. -/
theorem bom_dispatch (extras : List (List Nat → Str × Bool)) (rest : List Nat) :
    decodeBytes extras (0xFF :: 0xFE :: rest) = (rsDecode (utf16Core true) rest).1
    ∧ decodeBytes extras (0xFE :: 0xFF :: rest) = (rsDecode (utf16Core false) rest).1
    ∧ (forBom rest = none →
        decodeBytes extras (0xFF :: 0xFE :: rest) = (utf16Core true rest).1)
    ∧ (forBom rest = none →
        decodeBytes extras (0xFE :: 0xFF :: rest) = (utf16Core false rest).1)
    ∧ (∀ s, utf8Strict rest = some s →
        decodeBytes extras (0xEF :: 0xBB :: 0xBF :: rest) = s)
    ∧ (utf8Strict rest = none →
        decodeBytes extras (0xEF :: 0xBB :: 0xBF :: rest)
          = (firstSome (cascadeProbes extras).tail (0xEF :: 0xBB :: 0xBF :: rest)).getD
              (utf8Core (0xEF :: 0xBB :: 0xBF :: rest)).1) := by
  refine ⟨?_, ?_, ?_, ?_, ?_, ?_⟩
  · simp [decodeBytes, cascadeProbes, baseProbes, firstSome, bomProbe]
  · simp [decodeBytes, cascadeProbes, baseProbes, firstSome, bomProbe]
  · intro h
    simp [decodeBytes, cascadeProbes, baseProbes, firstSome, bomProbe, rsDecode, h]
  · intro h
    simp [decodeBytes, cascadeProbes, baseProbes, firstSome, bomProbe, rsDecode, h]
  · intro s h
    simp [decodeBytes, cascadeProbes, baseProbes, firstSome, bomProbe, h]
  · intro h
    simp only [decodeBytes, cascadeProbes, baseProbes, List.cons_append, firstSome,
      List.tail_cons]
    have hb : bomProbe (0xEF :: 0xBB :: 0xBF :: rest) = none := by
      simp [bomProbe, h]
    rw [hb]

/-- Witness for the amended C5, applying it at `rest = [FF]` (no inner BOM,
invalid UTF-8) and at `rest = [41]` (valid UTF-8 after the BOM). -/
theorem bom_dispatch_witness :
    decodeBytes [] [0xFF, 0xFE, 0xFF] = (utf16Core true [0xFF]).1
    ∧ decodeBytes [] [0xEF, 0xBB, 0xBF, 0x41] = ['A']
    ∧ decodeBytes [] [0xEF, 0xBB, 0xBF, 0xFF]
        = (firstSome (cascadeProbes []).tail [0xEF, 0xBB, 0xBF, 0xFF]).getD
            (utf8Core [0xEF, 0xBB, 0xBF, 0xFF]).1 :=
  ⟨(bom_dispatch [] [0xFF]).2.2.1 (by decide),
   (bom_dispatch [] [0x41]).2.2.2.2.1 ['A'] (by decide),
   (bom_dispatch [] [0xFF]).2.2.2.2.2 (by decide)⟩

/-- C9's unconditional part is false at a concrete input: on `EF BB BF FF`
the windows-1252 step *does* report an error (the library decode BOM-sniffs
and decodes the invalid remainder as UTF-8), and the final result of the
cascade is the lossy UTF-8 fallback, not the windows-1252 decoding. -/
theorem win1252_step_counterexample :
    (rsDecode win1252Core [0xEF, 0xBB, 0xBF, 0xFF]).2 = true
    ∧ decodeBytes [] [0xEF, 0xBB, 0xBF, 0xFF] = (utf8Core [0xEF, 0xBB, 0xBF, 0xFF]).1
    ∧ decodeBytes [] [0xEF, 0xBB, 0xBF, 0xFF] ≠ (win1252Core [0xEF, 0xBB, 0xBF, 0xFF]).1 := by
  refine ⟨by decide, by decide, by decide⟩

theorem forBom_none_parts {bs : List Nat} (h : forBom bs = none) :
    bs.take 3 ≠ [0xEF, 0xBB, 0xBF] ∧ bs.take 2 ≠ [0xFF, 0xFE]
      ∧ bs.take 2 ≠ [0xFE, 0xFF] := by
  unfold forBom at h
  split_ifs at h with h1 h2 h3
  exact ⟨h1, h2, h3⟩

theorem bomProbe_of_forBom_none {bs : List Nat} (h : forBom bs = none) :
    bomProbe bs = none := by
  obtain ⟨h1, h2, h3⟩ := forBom_none_parts h
  simp [bomProbe, h1, h2, h3]

theorem errCheckProbe_of_firstSome_base_none {bs : List Nat}
    (h : firstSome baseProbes bs = none) (dec : List Nat → Str × Bool) :
    errCheckProbe dec bs = none := by
  have hall := (firstSome_eq_none_iff baseProbes bs).1 h
  have hbom : bomProbe bs = none := hall bomProbe (by simp [baseProbes])
  have hwin : errCheckProbe win1252Core bs = none :=
    hall (errCheckProbe win1252Core) (by simp [baseProbes])
  by_cases h3 : bs.take 3 = [0xEF, 0xBB, 0xBF]
  · -- a UTF-8 BOM: the probe BOM-sniffs, so its value does not depend on `dec`
    have hfb : forBom bs = some (BomEnc.utf8, 3) := by simp [forBom, h3]
    simp only [errCheckProbe, rsDecode, hfb] at hwin ⊢
    exact hwin
  · by_cases h2 : bs.take 2 = [0xFF, 0xFE]
    · -- impossible: the BOM probe would have fired
      simp [bomProbe, h2] at hbom
    · by_cases h2' : bs.take 2 = [0xFE, 0xFF]
      · simp [bomProbe, h2, h2'] at hbom
      · -- no BOM at all: windows-1252 reports no error, contradicting `hwin`
        simp [errCheckProbe, rsDecode, forBom, h3, h2, h2', win1252Core] at hwin

/-- C9 amended: the windows-1252 step reports no error for every byte
sequence that does not begin with a recognised BOM; hence for every input
with no recognised BOM that is not well-formed UTF-8 and decodes with errors
under both UTF-16LE and UTF-16BE, the cascade returns the windows-1252
decoding; and the ISO-8859 / legacy encoding lists never contribute the
result (the cascade's value is independent of them). -/
theorem win1252_step_sound (extras : List (List Nat → Str × Bool)) (bs : List Nat) :
    (forBom bs = none → (rsDecode win1252Core bs).2 = false)
    ∧ (forBom bs = none → utf8Strict bs = none →
        (rsDecode (utf16Core true) bs).2 = true →
        (rsDecode (utf16Core false) bs).2 = true →
        decodeBytes extras bs = (win1252Core bs).1)
    ∧ decodeBytes extras bs = decodeBytes [] bs := by
  refine ⟨?_, ?_, ?_⟩
  · intro h; simp [rsDecode, h, win1252Core]
  · intro hB hU8 hle hbe
    have hbom : bomProbe bs = none := bomProbe_of_forBom_none hB
    have hle' : (utf16Core true bs).2 = true := by simpa [rsDecode, hB] using hle
    have hbe' : (utf16Core false bs).2 = true := by simpa [rsDecode, hB] using hbe
    simp [decodeBytes, cascadeProbes, baseProbes, firstSome, hbom, utf8Probe, hU8,
      errCheckProbe, rsDecode, hB, hle', hbe', win1252Core]
  · unfold decodeBytes cascadeProbes
    rw [firstSome_append, firstSome_append]
    cases h : firstSome baseProbes bs with
    | some y => rfl
    | none =>
      have hex : firstSome (extras.map errCheckProbe) bs = none := by
        rw [firstSome_eq_none_iff]
        intro p hp
        obtain ⟨dec, _, rfl⟩ := List.mem_map.1 hp
        exact errCheckProbe_of_firstSome_base_none h dec
      simp [hex, firstSome]

/-- Witness for the amended C9 at `bs = [80]`: no BOM, invalid UTF-8, odd
length (so both UTF-16 decodes report an error), and the result is the
windows-1252 decoding (the Euro sign). -/
theorem win1252_step_sound_witness :
    decodeBytes [] [0x80] = (win1252Core [0x80]).1
    ∧ (rsDecode win1252Core [0x80]).2 = false :=
  ⟨(win1252_step_sound [] [0x80]).2.1 (by decide) (by decide) (by decide) (by decide),
   (win1252_step_sound [] [0x80]).1 (by decide)⟩

/-- C3: for a non-empty file list that reads successfully, the concatenated
output is exactly the decoded texts, each with trailing whitespace trimmed,
joined by one newline, with no newline after the last file. -/
theorem concatenate_files_spec (extras : List (List Nat → Str × Bool)) (fs : FsTree)
    (files : List Str) (contents : List (List Nat))
    (hread : readAllFiles fs files = .ok contents) (_hne : files ≠ []) :
    concatenate_files extras fs files
      = .ok (List.intercalate ['\n']
          (contents.map fun c => trimEnd (decodeBytes extras c))) := by
  unfold concatenate_files
  rw [hread]
  simp only [concatOutput_eq_intercalate, List.map_map]
  rfl

/-- Witness for C3: `"Hello"` and `"World"` concatenate to exactly
`"Hello\nWorld"`, and `"Single content"` alone stays unchanged. -/
theorem concatenate_files_spec_witness :
    concatenate_files [] fsHW ["h.txt".data, "w.txt".data] = .ok "Hello\nWorld".data
    ∧ concatenate_files [] fsHW ["s.txt".data] = .ok "Single content".data := by
  have h1 := concatenate_files_spec [] fsHW ["h.txt".data, "w.txt".data]
    [[0x48, 0x65, 0x6C, 0x6C, 0x6F], [0x57, 0x6F, 0x72, 0x6C, 0x64]]
    (by decide) (by decide)
  have h2 := concatenate_files_spec [] fsHW ["s.txt".data]
    [[0x53, 0x69, 0x6E, 0x67, 0x6C, 0x65, 0x20, 0x63, 0x6F, 0x6E, 0x74, 0x65, 0x6E, 0x74]]
    (by decide) (by decide)
  rw [h1, h2]
  constructor <;> decide

/-- C6: an input token whose expansion contains no wildcard and names
neither an existing directory nor an existing regular file resolves to
`InputNotFound`, the error naming the original input. -/
theorem resolve_inputNotFound (fs : FsTree) (cwd : Str) (home : Option Str)
    (input : Str) (recursive : Bool)
    (hstar : (expandTilde home input).contains '*' = false)
    (hdir : fsIsDir fs (expandTilde home input) = false)
    (hfile : fsIsFile fs (expandTilde home input) = false) :
    resolve_input_files fs cwd home input recursive
      = .error (.inputNotFound input) := by
  unfold resolve_input_files
  simp only [hstar, Bool.false_and, Bool.false_eq_true, if_false]
  cases hL : pathLookup fs (expandTilde home input) with
  | none => simp [hstar]
  | some t =>
    cases t with
    | file c =>
      exfalso
      unfold fsIsFile at hfile
      rw [hL] at hfile
      simp at hfile
    | dir b es =>
      exfalso
      unfold fsIsDir at hdir
      rw [hL] at hdir
      simp at hdir

/-- Witness for C6 at the spec's example: `/nonexistent/file.txt` in a
working directory that does not contain it. -/
theorem resolve_inputNotFound_witness :
    resolve_input_files fsPlain "/cwd".data none "/nonexistent/file.txt".data false
      = .error (.inputNotFound "/nonexistent/file.txt".data) :=
  resolve_inputNotFound fsPlain "/cwd".data none "/nonexistent/file.txt".data false
    (by decide) (by decide) (by decide)

/-- C8: when the aggregate resolution yields zero files, `main` emits its
warning and exits 0 without creating or truncating the output file. -/
theorem main_empty_success (extras : List (List Nat → Str × Bool)) (fs : FsTree)
    (cwd : Str) (home : Option Str) (inputs : List Str) (recursive : Bool)
    (h : resolveAll fs cwd home recursive inputs = .ok []) :
    runMain extras fs cwd home inputs recursive = .emptyWarning
    ∧ exitCode (runMain extras fs cwd home inputs recursive) = 0
    ∧ writesOutput (runMain extras fs cwd home inputs recursive) = false := by
  unfold runMain
  rw [h]
  exact ⟨rfl, rfl, rfl⟩

/-- Witness for C8: a single token naming an existing empty directory. -/
theorem main_empty_success_witness :
    runMain [] fsEmptyDir "/cwd".data none ["d".data] false = .emptyWarning
    ∧ exitCode (runMain [] fsEmptyDir "/cwd".data none ["d".data] false) = 0
    ∧ writesOutput (runMain [] fsEmptyDir "/cwd".data none ["d".data] false) = false :=
  main_empty_success [] fsEmptyDir "/cwd".data none ["d".data] false (by decide)

/-- C7 as stated is false at a concrete tree: when a *directory* literally
named `*.txt` exists in the working directory (legal on Unix), the dispatch's
`is_dir` check — which precedes the bare-wildcard branch — resolves the bare
wildcard token `*.txt` to that directory's contents, and the result is a file
at depth 2, not a direct child of the working directory. -/
theorem bare_wildcard_counterexample :
    resolve_input_files fsStar "/cwd".data none "*.txt".data false
      = .ok ["*.txt/a.txt".data]
    ∧ (pathChunks "*.txt/a.txt".data).length = 2
    ∧ fsIsFile fsStar "*.txt/a.txt".data = true := by
  refine ⟨by decide, by decide, by decide⟩

theorem collect_files_with_wildcard_bare_mem {fs : FsTree} {cwd pattern : Str}
    {l : List Str} {p : Str}
    (hslash : pattern.contains '/' = false)
    (hok : collect_files_with_wildcard fs cwd pattern = .ok l) (hp : p ∈ l) :
    ∃ es n c, fs = .dir true es ∧ (n, FsTree.file c) ∈ entriesList es
      ∧ p = joinPath cwd n ∧ matches_pattern n pattern = true := by
  unfold collect_files_with_wildcard at hok
  simp only [hslash, Bool.false_eq_true, if_false] at hok
  match fs with
  | .file c => cases hok
  | .dir false es => cases hok
  | .dir true es =>
    refine ⟨es, ?_⟩
    have hl : l = (entriesList es).flatMap (fun e =>
        match e.2 with
        | .file _ => if matches_pattern e.1 pattern then [joinPath cwd e.1] else []
        | .dir _ _ => []) := by
      cases hok
      rfl
    rw [hl] at hp
    obtain ⟨e, he, hpe⟩ := List.mem_flatMap.1 hp
    match hE : e.2 with
    | .dir b es' => rw [hE] at hpe; cases hpe
    | .file c =>
      rw [hE] at hpe
      by_cases hm : matches_pattern e.1 pattern = true
      · rw [if_pos hm] at hpe
        refine ⟨e.1, c, rfl, ?_, ?_, hm⟩
        · have : (e.1, e.2) ∈ entriesList es := by simpa using he
          rw [hE] at this
          exact this
        · exact List.mem_singleton.1 hpe
      · rw [if_neg hm] at hpe
        cases hpe

/-- C7 amended: provided the bare wildcard token does not itself name an
existing directory (the dispatch checks `is_dir` first), a non-recursive
resolution of a token containing `*` and no separator returns only regular
files that are direct children of the current working directory, each
matching the pattern — never a file from a subdirectory. -/
theorem bare_wildcard_direct_children (fs : FsTree) (cwd : Str) (home : Option Str)
    (pattern : Str) (l : List Str) (p : Str)
    (hstar : (expandTilde home pattern).contains '*' = true)
    (hslash : (expandTilde home pattern).contains '/' = false)
    (hdir : fsIsDir fs (expandTilde home pattern) = false)
    (hok : resolve_input_files fs cwd home pattern false = .ok l)
    (hp : p ∈ l) :
    ∃ es n c, fs = .dir true es ∧ (n, FsTree.file c) ∈ entriesList es
      ∧ p = joinPath cwd n
      ∧ matches_pattern n (expandTilde home pattern) = true := by
  unfold resolve_input_files at hok
  simp only [hstar, hslash, Bool.true_and, Bool.false_eq_true, if_false] at hok
  cases hL : pathLookup fs (expandTilde home pattern) with
  | none =>
    rw [hL] at hok
    simp only [hstar, if_true] at hok
    exact collect_files_with_wildcard_bare_mem hslash hok hp
  | some t =>
    cases t with
    | file c =>
      rw [hL] at hok
      simp only [hstar, if_true] at hok
      exact collect_files_with_wildcard_bare_mem hslash hok hp
    | dir b es =>
      exfalso
      unfold fsIsDir at hdir
      rw [hL] at hdir
      simp at hdir

/-- Witness for the amended C7: resolving `*.txt` in a directory with
`file1.txt`, `other.log` and a subdirectory returns `/cwd/file1.txt`, a
matching direct file child. -/
theorem bare_wildcard_direct_children_witness :
    ∃ es n c, fsPlain = .dir true es ∧ (n, FsTree.file c) ∈ entriesList es
      ∧ "/cwd/file1.txt".data = joinPath "/cwd".data n
      ∧ matches_pattern n (expandTilde none "*.txt".data) = true :=
  bare_wildcard_direct_children fsPlain "/cwd".data none "*.txt".data
    ["/cwd/file1.txt".data] "/cwd/file1.txt".data
    (by decide) (by decide) (by decide) (by decide) (by decide)

theorem collect_files_in_directory_err {dirPath : Str} {t : FsTree} {e : RErr}
    (h : collect_files_in_directory dirPath t = .error e) :
    ∃ q, e = .dirReadError q := by
  match t with
  | .file _ => cases h; exact ⟨dirPath, rfl⟩
  | .dir false _ => cases h; exact ⟨dirPath, rfl⟩
  | .dir true _ => cases h

theorem collect_files_in_directory_with_pattern_err {dirPath pattern : Str}
    {t : FsTree} {e : RErr}
    (h : collect_files_in_directory_with_pattern dirPath pattern t = .error e) :
    ∃ q, e = .dirReadError q := by
  match t with
  | .file _ => cases h; exact ⟨dirPath, rfl⟩
  | .dir false _ => cases h; exact ⟨dirPath, rfl⟩
  | .dir true _ => cases h

mutual
theorem collect_files_recursive_err (dirPath : Str) (t : FsTree) (e : RErr)
    (h : collect_files_recursive dirPath t = .error e) :
    ∃ q, e = .dirReadError q := by
  match t with
  | .file _ => cases h; exact ⟨dirPath, rfl⟩
  | .dir false _ => cases h; exact ⟨dirPath, rfl⟩
  | .dir true es => exact collectRecEntries_err dirPath es e h

theorem collectRecEntries_err (dirPath : Str) (es : FsEntries) (e : RErr)
    (h : collectRecEntries dirPath es = .error e) :
    ∃ q, e = .dirReadError q := by
  match es with
  | .nil => cases h
  | .cons n t rest =>
    unfold collectRecEntries at h
    match t with
    | .file _ =>
      try simp only [] at h
      cases hrest : collectRecEntries dirPath rest with
      | ok r => rw [hrest] at h; cases h
      | error e' =>
        rw [hrest] at h
        cases h
        exact collectRecEntries_err dirPath rest e hrest
    | .dir b es' =>
      try simp only [] at h
      cases hsub : collect_files_recursive (joinPath dirPath n) (.dir b es') with
      | ok sub =>
        rw [hsub] at h
        cases hrest : collectRecEntries dirPath rest with
        | ok r => rw [hrest] at h; cases h
        | error e' =>
          rw [hrest] at h
          cases h
          exact collectRecEntries_err dirPath rest e hrest
      | error e' =>
        rw [hsub] at h
        cases h
        exact collect_files_recursive_err (joinPath dirPath n) (.dir b es') e hsub
end

mutual
theorem collect_files_recursive_with_pattern_err (dirPath pattern : Str)
    (t : FsTree) (e : RErr)
    (h : collect_files_recursive_with_pattern dirPath pattern t = .error e) :
    ∃ q, e = .dirReadError q := by
  match t with
  | .file _ => cases h; exact ⟨dirPath, rfl⟩
  | .dir false _ => cases h; exact ⟨dirPath, rfl⟩
  | .dir true es => exact collectRecPatEntries_err dirPath pattern es e h

theorem collectRecPatEntries_err (dirPath pattern : Str) (es : FsEntries) (e : RErr)
    (h : collectRecPatEntries dirPath pattern es = .error e) :
    ∃ q, e = .dirReadError q := by
  match es with
  | .nil => cases h
  | .cons n t rest =>
    unfold collectRecPatEntries at h
    match t with
    | .file _ =>
      try simp only [] at h
      cases hrest : collectRecPatEntries dirPath pattern rest with
      | ok r => rw [hrest] at h; cases h
      | error e' =>
        rw [hrest] at h
        cases h
        exact collectRecPatEntries_err dirPath pattern rest e hrest
    | .dir b es' =>
      try simp only [] at h
      cases hsub : collect_files_recursive_with_pattern (joinPath dirPath n) pattern
          (.dir b es') with
      | ok sub =>
        rw [hsub] at h
        cases hrest : collectRecPatEntries dirPath pattern rest with
        | ok r => rw [hrest] at h; cases h
        | error e' =>
          rw [hrest] at h
          cases h
          exact collectRecPatEntries_err dirPath pattern rest e hrest
      | error e' =>
        rw [hsub] at h
        cases h
        exact collect_files_recursive_with_pattern_err (joinPath dirPath n) pattern
          (.dir b es') e hsub
end

theorem exceptFlatten_err : ∀ {l : List (Except RErr (List Str))} {e : RErr},
    exceptFlatten l = .error e → Except.error e ∈ l := by
  intro l
  induction l with
  | nil => intro e h; cases h
  | cons x rest ih =>
    intro e h
    match x with
    | .error e' =>
      simp only [exceptFlatten] at h
      cases h
      exact List.mem_cons_self _ _
    | .ok l' =>
      simp only [exceptFlatten] at h
      cases hr : exceptFlatten rest with
      | error e2 =>
        rw [hr] at h
        cases h
        exact List.mem_cons_of_mem _ (ih hr)
      | ok r =>
        rw [hr] at h
        cases h

theorem exceptFlatten_ok : ∀ {l : List (Except RErr (List Str))},
    (∀ x ∈ l, ∃ lx, x = Except.ok lx) → ∃ r, exceptFlatten l = .ok r := by
  intro l
  induction l with
  | nil => intro _; exact ⟨[], rfl⟩
  | cons x rest ih =>
    intro hall
    obtain ⟨lx, rfl⟩ := hall x (List.mem_cons_self _ _)
    obtain ⟨r, hr⟩ := ih fun y hy => hall y (List.mem_cons_of_mem _ hy)
    exact ⟨lx ++ r, by simp only [exceptFlatten, hr]⟩

theorem findEntry_mem : ∀ {es : FsEntries} {c : Str} {ch : FsTree},
    findEntry es c = some ch → (c, ch) ∈ entriesList es := by
  intro es
  match es with
  | .nil => intro c ch h; cases h
  | .cons n t rest =>
    intro c ch h
    unfold findEntry at h
    simp only [entriesList]
    by_cases hn : n = c
    · rw [if_pos hn] at h
      cases h
      subst hn
      exact List.mem_cons_self _ _
    · rw [if_neg hn] at h
      exact List.mem_cons_of_mem _ (findEntry_mem h)

theorem allReadable_mem : ∀ {es : FsEntries} {n : Str} {ch : FsTree},
    allReadableEntries es = true → (n, ch) ∈ entriesList es →
    allReadable ch = true := by
  intro es
  match es with
  | .nil => intro n ch _ hm; cases hm
  | .cons m t rest =>
    intro n ch hr hm
    unfold allReadableEntries at hr
    simp only [Bool.and_eq_true] at hr
    simp only [entriesList] at hm
    rcases List.mem_cons.1 hm with hEq | hm'
    · cases hEq
      exact hr.1
    · exact allReadable_mem hr.2 hm'

/-- Every failure of the glob walk is a directory-read failure on some
path (the crate's `GlobError`). -/
theorem globWalk_err : ∀ (comps : List Str) (t : FsTree) (path : Str) {e : RErr},
    globWalk comps t path = .error e → ∃ q, e = .dirReadError q := by
  intro comps
  induction comps with
  | nil => intro t path e h; cases h
  | cons c restComps ih =>
    intro t path e h
    match restComps with
    | [] =>
      match t with
      | .file _ => cases h
      | .dir r es =>
        simp only [globWalk] at h
        by_cases hw : compHasWildcard c = true
        · rw [if_pos hw] at h
          by_cases hr : r = true
          · rw [if_pos hr] at h
            cases h
          · rw [if_neg hr] at h
            cases h
            exact ⟨path, rfl⟩
        · rw [if_neg hw] at h
          cases hf : findEntry es c with
          | none => rw [hf] at h; cases h
          | some ch =>
            match ch with
            | .file _ => rw [hf] at h; cases h
            | .dir _ _ => rw [hf] at h; cases h
    | c' :: rest =>
      match t with
      | .file _ => cases h
      | .dir r es =>
        simp only [globWalk] at h
        by_cases hw : compHasWildcard c = true
        · rw [if_pos hw] at h
          by_cases hr : r = true
          · rw [if_pos hr] at h
            have hmem := exceptFlatten_err h
            obtain ⟨x, hx, hxe⟩ := List.mem_map.1 hmem
            match hx2 : x.2 with
            | .file _ => rw [hx2] at hxe; cases hxe
            | .dir b es' =>
              rw [hx2] at hxe
              by_cases hm : globMatch c x.1 = true
              · rw [if_pos hm] at hxe
                exact ih (.dir b es') (joinPath path x.1) hxe
              · rw [if_neg hm] at hxe
                cases hxe
          · rw [if_neg hr] at h
            cases h
            exact ⟨path, rfl⟩
        · rw [if_neg hw] at h
          cases hf : findEntry es c with
          | none => rw [hf] at h; cases h
          | some ch =>
            rw [hf] at h
            exact ih ch (joinPath path c) h

/-- When every directory of the tree is readable the glob walk cannot hit a
`read_dir` failure, so it succeeds. -/
theorem globWalk_ok : ∀ (comps : List Str) (t : FsTree) (path : Str),
    allReadable t = true → ∃ l, globWalk comps t path = .ok l := by
  intro comps
  induction comps with
  | nil => intro t path _; exact ⟨[], rfl⟩
  | cons c restComps ih =>
    intro t path hread
    match restComps with
    | [] =>
      match t with
      | .file _ => exact ⟨[], rfl⟩
      | .dir r es =>
        unfold allReadable at hread
        simp only [Bool.and_eq_true] at hread
        simp only [globWalk]
        by_cases hw : compHasWildcard c = true
        · rw [if_pos hw, if_pos hread.1]
          exact ⟨_, rfl⟩
        · rw [if_neg hw]
          cases hf : findEntry es c with
          | none => exact ⟨[], rfl⟩
          | some ch =>
            match ch with
            | .file _ => exact ⟨_, rfl⟩
            | .dir _ _ => exact ⟨[], rfl⟩
    | c' :: rest =>
      match t with
      | .file _ => exact ⟨[], rfl⟩
      | .dir r es =>
        unfold allReadable at hread
        simp only [Bool.and_eq_true] at hread
        simp only [globWalk]
        by_cases hw : compHasWildcard c = true
        · rw [if_pos hw, if_pos hread.1]
          apply exceptFlatten_ok
          intro x hx
          obtain ⟨en, he, rfl⟩ := List.mem_map.1 hx
          match hE : en.2 with
          | .file _ => exact ⟨[], rfl⟩
          | .dir b es' =>
            cases hm : globMatch c en.1 with
            | false => exact ⟨[], by simp [hm]⟩
            | true =>
              have hpair : (en.1, en.2) ∈ entriesList es := by simpa using he
              have hch := allReadable_mem hread.2 hpair
              rw [hE] at hch
              obtain ⟨l, hl⟩ := ih (.dir b es') (joinPath path en.1) hch
              exact ⟨l, by simp [hm, hl]⟩
        · rw [if_neg hw]
          cases hf : findEntry es c with
          | none => exact ⟨[], rfl⟩
          | some ch =>
            exact ih ch (joinPath path c)
              (allReadable_mem hread.2 (findEntry_mem hf))

theorem collect_files_with_wildcard_err {fs : FsTree} {cwd pattern : Str} {e : RErr}
    (h : collect_files_with_wildcard fs cwd pattern = .error e) :
    (∃ q, e = .dirReadError q) ∨ (∃ q, e = .invalidPattern q) := by
  unfold collect_files_with_wildcard at h
  by_cases hs : pattern.contains '/' = true
  · rw [if_pos hs] at h
    by_cases hv : globValid pattern = true
    · rw [if_pos hv] at h
      exact Or.inl (globWalk_err _ _ _ h)
    · rw [if_neg hv] at h
      cases h
      exact Or.inr ⟨pattern, rfl⟩
  · rw [if_neg hs] at h
    match fs with
    | .file _ => cases h; exact Or.inl ⟨cwd, rfl⟩
    | .dir false _ => cases h; exact Or.inl ⟨cwd, rfl⟩
    | .dir true _ => cases h

theorem collect_files_with_wildcard_recursive_err {fs : FsTree} {pattern : Str}
    {e : RErr}
    (h : collect_files_with_wildcard_recursive fs pattern = .error e) :
    ∃ q, e = .dirReadError q := by
  unfold collect_files_with_wildcard_recursive at h
  by_cases hs : pattern.contains '/' = true
  · rw [if_pos hs] at h
    simp only [] at h
    cases hL : pathLookup fs (rsplitSlash pattern).1 with
    | none => rw [hL] at h; simp only [] at h; cases h
    | some t =>
      match t with
      | .file _ => rw [hL] at h; simp only [] at h; cases h
      | .dir b es =>
        rw [hL] at h
        try simp only [] at h
        exact collect_files_recursive_with_pattern_err _ _ _ _ h
  · rw [if_neg hs] at h
    exact collect_files_recursive_with_pattern_err _ _ _ _ h

theorem expandTilde_contains_star {home : Option Str} {input : Str}
    (h : input.contains '*' = true) :
    (expandTilde home input).contains '*' = true := by
  unfold expandTilde
  by_cases ht : input.take 2 = ['~', '/']
  · rw [if_pos ht]
    match home with
    | none => exact h
    | some hm =>
      have hmem : '*' ∈ input := by simpa using h
      obtain ⟨rest, rfl⟩ : ∃ rest, input = '~' :: '/' :: rest := by
        match input with
        | [] => cases ht
        | [a] => simp at ht
        | a :: b :: t =>
          simp only [List.take] at ht
          cases ht
          exact ⟨t, rfl⟩
      simp only [List.drop_one, List.tail_cons]
      have hr : '*' ∈ rest := by
        simp only [List.mem_cons] at hmem
        rcases hmem with h1 | h1 | h1
        · exact absurd h1 (by decide)
        · exact absurd h1 (by decide)
        · exact h1
      have : '*' ∈ hm ++ '/' :: rest := List.mem_append_right _ (List.mem_cons_of_mem _ hr)
      simpa using this
  · rw [if_neg ht]
    exact h

/-- Any failure of a wildcard-bearing token's resolution is a directory-read
or invalid-pattern error, never `InputNotFound`. -/
theorem resolve_wildcard_err {fs : FsTree} {cwd : Str} {home : Option Str}
    {input : Str} {recursive : Bool} {e : RErr}
    (hstar : (expandTilde home input).contains '*' = true)
    (h : resolve_input_files fs cwd home input recursive = .error e) :
    (∃ q, e = .dirReadError q) ∨ (∃ q, e = .invalidPattern q) := by
  unfold resolve_input_files at h
  simp only [hstar, Bool.true_and] at h
  by_cases hs : (expandTilde home input).contains '/' = true
  · rw [if_pos hs] at h
    try simp only [] at h
    cases hL : pathLookup fs (rsplitSlash (expandTilde home input)).1 with
    | none =>
      rw [hL] at h
      try simp only [] at h
      cases recursive with
      | true => exact Or.inl (collect_files_with_wildcard_recursive_err h)
      | false => exact collect_files_with_wildcard_err h
    | some t =>
      match t with
      | .file _ =>
        rw [hL] at h
        try simp only [] at h
        cases recursive with
        | true => exact Or.inl (collect_files_with_wildcard_recursive_err h)
        | false => exact collect_files_with_wildcard_err h
      | .dir b es =>
        rw [hL] at h
        try simp only [] at h
        cases recursive with
        | true => exact Or.inl (collect_files_recursive_with_pattern_err _ _ _ _ h)
        | false => exact Or.inl (collect_files_in_directory_with_pattern_err h)
  · rw [if_neg hs] at h
    cases hL : pathLookup fs (expandTilde home input) with
    | none =>
      rw [hL] at h
      try simp only [] at h
      simp only [if_true] at h
      cases recursive with
      | true => exact Or.inl (collect_files_with_wildcard_recursive_err h)
      | false => exact collect_files_with_wildcard_err h
    | some t =>
      match t with
      | .file _ =>
        rw [hL] at h
        try simp only [] at h
        simp only [if_true] at h
        cases recursive with
        | true => exact Or.inl (collect_files_with_wildcard_recursive_err h)
        | false => exact collect_files_with_wildcard_err h
      | .dir b es =>
        rw [hL] at h
        try simp only [] at h
        cases recursive with
        | true => exact Or.inl (collect_files_recursive_err _ _ _ h)
        | false => exact Or.inl (collect_files_in_directory_err h)

/-- C10 as stated is false at a concrete input: the token
`nosuchdir/[*.txt` contains a wildcard and its directory component does not
exist, yet non-recursive resolution *fails* (the `glob` crate rejects the
unclosed character class eagerly) instead of succeeding with an empty list. -/
theorem wildcard_invalid_pattern_counterexample :
    ("nosuchdir/[*.txt".data : Str).contains '*' = true
    ∧ fsIsDir fsPlain "nosuchdir".data = false
    ∧ resolve_input_files fsPlain "/cwd".data none "nosuchdir/[*.txt".data false
        = .error (.invalidPattern "nosuchdir/[*.txt".data) := by
  refine ⟨by decide, by decide, by decide⟩

/-- C10 amended: resolution of a wildcard-bearing token never fails with
`InputNotFound`; in the recursive case a nonexistent directory component
yields success with the empty list; and in the non-recursive separated case
resolution succeeds whenever the pattern is a well-formed simple glob (no
character-class brackets, no doubled star) *and* every directory of the tree
is readable — a malformed glob instead fails with an invalid-pattern error
(as the counterexample shows), and an unreadable directory met while
expanding a wildcard component fails with `glob`'s directory-read error. -/
theorem wildcard_resolution (fs : FsTree) (cwd : Str) (home : Option Str)
    (input : Str) :
    (∀ recursive s, input.contains '*' = true →
        resolve_input_files fs cwd home input recursive
          ≠ .error (.inputNotFound s))
    ∧ ((expandTilde home input).contains '*' = true →
        (expandTilde home input).contains '/' = true →
        fsIsDir fs (rsplitSlash (expandTilde home input)).1 = false →
        resolve_input_files fs cwd home input true = .ok [])
    ∧ ((expandTilde home input).contains '*' = true →
        (expandTilde home input).contains '/' = true →
        fsIsDir fs (rsplitSlash (expandTilde home input)).1 = false →
        globValid (expandTilde home input) = true →
        allReadable fs = true →
        ∃ l, resolve_input_files fs cwd home input false = .ok l) := by
  refine ⟨?_, ?_, ?_⟩
  · intro recursive s hstar h
    rcases resolve_wildcard_err (expandTilde_contains_star hstar) h with ⟨q, hq⟩ | ⟨q, hq⟩
    · cases hq
    · cases hq
  · intro hstar hs hdir
    unfold resolve_input_files
    simp only [hstar, hs, Bool.true_and, if_true]
    cases hL : pathLookup fs (rsplitSlash (expandTilde home input)).1 with
    | none =>
      simp only [if_true]
      unfold collect_files_with_wildcard_recursive
      simp only [hs, if_true, hL]
    | some t =>
      match t with
      | .file _ =>
        simp only [if_true]
        unfold collect_files_with_wildcard_recursive
        simp only [hs, if_true, hL]
      | .dir b es =>
        exfalso
        unfold fsIsDir at hdir
        rw [hL] at hdir
        simp at hdir
  · intro hstar hs hdir hvalid hall
    unfold resolve_input_files
    simp only [hstar, hs, Bool.true_and, if_true]
    cases hL : pathLookup fs (rsplitSlash (expandTilde home input)).1 with
    | none =>
      simp only [Bool.false_eq_true, if_false]
      unfold collect_files_with_wildcard
      simp only [hs, hvalid, if_true]
      exact globWalk_ok _ _ _ hall
    | some t =>
      match t with
      | .file _ =>
        simp only [Bool.false_eq_true, if_false]
        unfold collect_files_with_wildcard
        simp only [hs, hvalid, if_true]
        exact globWalk_ok _ _ _ hall
      | .dir b es =>
        exfalso
        unfold fsIsDir at hdir
        rw [hL] at hdir
        simp at hdir

/-- Witness for the amended C10, discharging each hypothesis at concrete
inputs: a bare pattern matching nothing, and a separated pattern over a
nonexistent directory, recursively and not. -/
theorem wildcard_resolution_witness :
    (resolve_input_files fsPlain "/cwd".data none "*.zzz".data false
        ≠ .error (.inputNotFound "*.zzz".data))
    ∧ resolve_input_files fsPlain "/cwd".data none "nosuchdir/*.txt".data true = .ok []
    ∧ (∃ l, resolve_input_files fsPlain "/cwd".data none "nosuchdir/*.txt".data false
        = .ok l) :=
  ⟨(wildcard_resolution fsPlain "/cwd".data none "*.zzz".data).1 false
      "*.zzz".data (by decide),
   (wildcard_resolution fsPlain "/cwd".data none "nosuchdir/*.txt".data).2.1
      (by decide) (by decide) (by decide),
   (wildcard_resolution fsPlain "/cwd".data none "nosuchdir/*.txt".data).2.2
      (by decide) (by decide) (by decide) (by decide) (by decide)⟩

/-! ### The path order is a total preorder -/

theorem natCmp_eq_iff {a b : Nat} : natCmp a b = .eq ↔ a = b := by
  unfold natCmp
  split_ifs <;> simp_all <;> omega

theorem natCmp_lt_iff {a b : Nat} : natCmp a b = .lt ↔ a < b := by
  unfold natCmp
  split_ifs <;> simp_all <;> omega

theorem natCmp_swap (a b : Nat) : natCmp a b = (natCmp b a).swap := by
  unfold natCmp
  split_ifs <;> simp_all [Ordering.swap] <;> omega

theorem charCmp_eq_iff {a b : Char} : charCmp a b = .eq ↔ a = b := by
  unfold charCmp
  rw [natCmp_eq_iff]
  constructor
  · intro h
    exact Char.ext (UInt32.ext h)
  · intro h
    rw [h]

theorem charCmp_swap (a b : Char) : charCmp a b = (charCmp b a).swap :=
  natCmp_swap _ _

theorem charCmp_lt_trans {a b c : Char}
    (h₁ : charCmp a b = .lt) (h₂ : charCmp b c = .lt) : charCmp a c = .lt := by
  unfold charCmp at h₁ h₂ ⊢
  rw [natCmp_lt_iff] at h₁ h₂ ⊢
  omega

theorem lexCmp_eq_iff {α : Type} {cmp : α → α → Ordering}
    (hcmp : ∀ a b, cmp a b = .eq ↔ a = b) :
    ∀ l₁ l₂ : List α, lexCmp cmp l₁ l₂ = .eq ↔ l₁ = l₂ := by
  intro l₁
  induction l₁ with
  | nil => intro l₂; cases l₂ <;> simp [lexCmp]
  | cons a as ih =>
    intro l₂
    cases l₂ with
    | nil => simp [lexCmp]
    | cons b bs =>
      simp only [lexCmp]
      cases hab : cmp a b with
      | eq =>
        have hEq : a = b := (hcmp a b).1 hab
        subst hEq
        simp [ih bs]
      | lt =>
        have : a ≠ b := fun hc => by rw [hc] at hab; simp [(hcmp b b).2 rfl] at hab
        simp [this]
      | gt =>
        have : a ≠ b := fun hc => by rw [hc] at hab; simp [(hcmp b b).2 rfl] at hab
        simp [this]

theorem lexCmp_swap {α : Type} {cmp : α → α → Ordering}
    (hs : ∀ a b, cmp a b = (cmp b a).swap) :
    ∀ l₁ l₂ : List α, lexCmp cmp l₁ l₂ = (lexCmp cmp l₂ l₁).swap := by
  intro l₁
  induction l₁ with
  | nil => intro l₂; cases l₂ <;> simp [lexCmp, Ordering.swap]
  | cons a as ih =>
    intro l₂
    cases l₂ with
    | nil => simp [lexCmp, Ordering.swap]
    | cons b bs =>
      simp only [lexCmp]
      rw [hs a b]
      cases cmp b a <;> simp [Ordering.swap, ih bs]

theorem lexCmp_le_trans {α : Type} {cmp : α → α → Ordering}
    (heq : ∀ a b, cmp a b = .eq ↔ a = b)
    (hlt : ∀ a b c, cmp a b = .lt → cmp b c = .lt → cmp a c = .lt) :
    ∀ l₁ l₂ l₃ : List α, lexCmp cmp l₁ l₂ ≠ .gt → lexCmp cmp l₂ l₃ ≠ .gt →
      lexCmp cmp l₁ l₃ ≠ .gt := by
  intro l₁
  induction l₁ with
  | nil =>
    intro l₂ l₃ _ _
    cases l₃ <;> simp [lexCmp]
  | cons a as ih =>
    intro l₂ l₃ h₁ h₂
    cases l₂ with
    | nil => simp [lexCmp] at h₁
    | cons b bs =>
      cases l₃ with
      | nil => simp [lexCmp] at h₂
      | cons c cs =>
        simp only [lexCmp] at h₁ h₂ ⊢
        cases hab : cmp a b with
        | gt => rw [hab] at h₁; exact absurd rfl h₁
        | eq =>
          have hEq : a = b := (heq a b).1 hab
          subst hEq
          rw [hab] at h₁
          cases hbc : cmp a c with
          | gt => rw [hbc] at h₂; exact absurd rfl h₂
          | eq =>
            have hEq : a = c := (heq a c).1 hbc
            subst hEq
            rw [hbc] at h₂
            exact ih bs cs h₁ h₂
          | lt => simp
        | lt =>
          rw [hab] at h₁
          cases hbc : cmp b c with
          | gt => rw [hbc] at h₂; exact absurd rfl h₂
          | eq =>
            have hEq : b = c := (heq b c).1 hbc
            subst hEq
            simp [hab]
          | lt => simp [hlt a b c hab hbc]

theorem strCmp_eq_iff {a b : Str} : strCmp a b = .eq ↔ a = b :=
  lexCmp_eq_iff (fun _ _ => charCmp_eq_iff) a b

theorem strCmp_swap (a b : Str) : strCmp a b = (strCmp b a).swap :=
  lexCmp_swap charCmp_swap a b

theorem strCmp_lt_trans {a b c : Str}
    (h₁ : strCmp a b = .lt) (h₂ : strCmp b c = .lt) : strCmp a c = .lt := by
  revert b c
  induction a with
  | nil =>
    intro b c h₁ h₂
    cases b with
    | nil => cases h₁
    | cons y ys => cases c with
      | nil => cases h₂
      | cons z zs => simp [strCmp, lexCmp]
  | cons x xs ih =>
    intro b c h₁ h₂
    cases b with
    | nil => cases h₁
    | cons y ys =>
      cases c with
      | nil => cases h₂
      | cons z zs =>
        simp only [strCmp, lexCmp] at h₁ h₂ ⊢
        cases hxy : charCmp x y with
        | gt => rw [hxy] at h₁; cases h₁
        | eq =>
          have hEq : x = y := charCmp_eq_iff.1 hxy
          subst hEq
          rw [hxy] at h₁
          cases hyz : charCmp x z with
          | gt => rw [hyz] at h₂; cases h₂
          | eq =>
            have hEq : x = z := charCmp_eq_iff.1 hyz
            subst hEq
            rw [hyz] at h₂
            simpa using ih h₁ h₂
          | lt => simp
        | lt =>
          rw [hxy] at h₁
          cases hyz : charCmp y z with
          | gt => rw [hyz] at h₂; cases h₂
          | eq =>
            have hEq : y = z := charCmp_eq_iff.1 hyz
            subst hEq
            simp [hxy]
          | lt => simp [charCmp_lt_trans hxy hyz]

theorem pcompCmp_eq_iff {a b : PComp} : pcompCmp a b = .eq ↔ a = b := by
  cases a <;> cases b <;>
    simp [pcompCmp, pcompRank, natCmp, strCmp_eq_iff]

theorem pcompCmp_swap (a b : PComp) : pcompCmp a b = (pcompCmp b a).swap := by
  cases a <;> cases b <;>
    first
    | rfl
    | (simp only [pcompCmp, pcompRank]
       rw [show natCmp 3 3 = Ordering.eq from rfl]
       exact strCmp_swap _ _)

theorem pcompCmp_lt_trans {a b c : PComp}
    (h₁ : pcompCmp a b = .lt) (h₂ : pcompCmp b c = .lt) : pcompCmp a c = .lt := by
  cases a <;> cases b <;> cases c <;>
    simp_all [pcompCmp, pcompRank, natCmp, Ordering.swap] <;>
    first
    | omega
    | exact strCmp_lt_trans h₁ h₂

theorem pathCmp_swap (a b : Str) : pathCmp a b = (pathCmp b a).swap :=
  lexCmp_swap pcompCmp_swap _ _

theorem pathLeP_refl (a : Str) : pathLeP a a := by
  unfold pathLeP pathCmp
  rw [(lexCmp_eq_iff (fun _ _ => pcompCmp_eq_iff) _ _).2 rfl]
  simp

theorem pathLeP_total (a b : Str) : pathLeP a b ∨ pathLeP b a := by
  unfold pathLeP
  cases h : pathCmp a b with
  | gt =>
    right
    rw [pathCmp_swap] at h
    cases hba : pathCmp b a <;> simp_all [Ordering.swap]
  | lt => left; simp
  | eq => left; simp

theorem pathLeP_trans {a b c : Str} (h₁ : pathLeP a b) (h₂ : pathLeP b c) :
    pathLeP a c :=
  lexCmp_le_trans (fun _ _ => pcompCmp_eq_iff) (fun _ _ _ => pcompCmp_lt_trans)
    _ _ _ h₁ h₂

instance : IsTotal Str pathLeP := ⟨pathLeP_total⟩

instance : IsTrans Str pathLeP := ⟨fun _ _ _ => pathLeP_trans⟩

/-- Two sorted permutations of the same list coincide when comparison-equal
elements of the list are identical (the restricted antisymmetry the amended
C1 assumes). -/
theorem sorted_perm_eq : ∀ {l₁ l₂ : List Str}, l₁.Perm l₂ →
    List.Sorted pathLeP l₁ → List.Sorted pathLeP l₂ →
    (∀ a ∈ l₁, ∀ b ∈ l₁, pathLeP a b → pathLeP b a → a = b) → l₁ = l₂ := by
  intro l₁
  induction l₁ with
  | nil =>
    intro l₂ hp _ _ _
    exact hp.nil_eq
  | cons a t ih =>
    intro l₂ hp hs₁ hs₂ hanti
    cases l₂ with
    | nil => exact absurd hp.symm.nil_eq (by simp)
    | cons b t₂ =>
      have hbmem : b ∈ a :: t := hp.mem_iff.2 (List.mem_cons_self b t₂)
      have hamem : a ∈ b :: t₂ := hp.mem_iff.1 (List.mem_cons_self a t)
      have hab : pathLeP a b := by
        rcases List.mem_cons.1 hbmem with hEq | hmem
        · rw [hEq]
          exact pathLeP_refl a
        · exact List.rel_of_sorted_cons hs₁ b hmem
      have hba : pathLeP b a := by
        rcases List.mem_cons.1 hamem with hEq | hmem
        · rw [hEq]
          exact pathLeP_refl b
        · exact List.rel_of_sorted_cons hs₂ a hmem
      have hEq : a = b := hanti a (List.mem_cons_self a t) b hbmem hab hba
      subst hEq
      have ht : t.Perm t₂ := hp.cons_inv
      have : t = t₂ :=
        ih ht hs₁.of_cons hs₂.of_cons
          (fun x hx y hy => hanti x (List.mem_cons_of_mem _ hx)
            y (List.mem_cons_of_mem _ hy))
      rw [this]

/-- C1 as stated is false at a concrete run: with files `a-b` and `a/b`, the
program's aggregate order (Rust `Path` ordering: component-wise) puts `a/b`
before `a-b`, but byte-wise string comparison orders `a-b` (0x2D) before
`a/b` (0x2F), so the output order is *not* byte-wise lexicographic. -/
theorem sort_not_bytewise_counterexample :
    runMain [] fsC1 "/cwd".data none ["a-b".data, "a/b".data] false
      = .wrote ["a/b".data, "a-b".data] "Y\nX".data
    ∧ byteLexSorted ["a/b".data, "a-b".data] = false
    ∧ strCmp "a-b".data "a/b".data = .lt := by
  refine ⟨by decide, by decide, by decide⟩

/-- C1 amended: the aggregate list is globally sorted by Rust's `Path`
ordering — component-wise comparison with individual components compared
byte-wise — and for every multiset of resolved paths in which paths that
compare equal are identical, the sorted order depends only on that comparison
and the multiset, never on input-token order or filesystem enumeration
order. -/
theorem main_sort_path_order (l₁ l₂ : List Str)
    (hperm : l₁.Perm l₂)
    (hanti : ∀ a ∈ l₁, ∀ b ∈ l₁, pathLeP a b → pathLeP b a → a = b) :
    pathSort l₁ = pathSort l₂
    ∧ List.Sorted pathLeP (pathSort l₁)
    ∧ (pathSort l₁).Perm l₁ := by
  have hs₁ : List.Sorted pathLeP (pathSort l₁) := List.sorted_insertionSort pathLeP l₁
  have hs₂ : List.Sorted pathLeP (pathSort l₂) := List.sorted_insertionSort pathLeP l₂
  have hp₁ : (pathSort l₁).Perm l₁ := List.perm_insertionSort pathLeP l₁
  have hp₂ : (pathSort l₂).Perm l₂ := List.perm_insertionSort pathLeP l₂
  refine ⟨?_, hs₁, hp₁⟩
  have hp : (pathSort l₁).Perm (pathSort l₂) := (hp₁.trans hperm).trans hp₂.symm
  exact sorted_perm_eq hp hs₁ hs₂
    (fun a ha b hb => hanti a (hp₁.mem_iff.1 ha) b (hp₁.mem_iff.1 hb))

/-- Witness for the amended C1: the two token orders for `{a-b, a/b}` sort to
the same list, which is sorted under `Path` ordering. -/
theorem main_sort_path_order_witness :
    pathSort ["a-b".data, "a/b".data] = pathSort ["a/b".data, "a-b".data]
    ∧ List.Sorted pathLeP (pathSort ["a-b".data, "a/b".data])
    ∧ (pathSort ["a-b".data, "a/b".data]).Perm ["a-b".data, "a/b".data] :=
  main_sort_path_order ["a-b".data, "a/b".data] ["a/b".data, "a-b".data]
    (by decide) (by decide)

end Concatener
